import Mathlib

/-!
Verification development for the universal-links-server deferred deep-link
and referral services.

The embedding models the SQLite-backed services as pure functions over lists
of records.  Each table row becomes a structure; SQL timestamps are modelled
as integers (`datetime('now')` becomes a `now : Int` parameter, and relative
cutoffs such as `datetime('now', '-N minutes')` become integer subtraction).
JavaScript truthiness coercions (`x || null`, `x || undefined`, `x || ''`)
are modelled explicitly: the empty string and the number 0 are falsy.
`id` columns are primary keys and `referrer_token` / `referral_code` carry
UNIQUE constraints in the schema; theorems that need those constraints take
them as explicit hypotheses on the list.
-/

/-- JavaScript coercion `s || null` / `s || undefined` on an optional string:
the empty string is falsy and collapses to null. -/
def jsStr (o : Option String) : Option String :=
  match o with
  | some s => if s = "" then none else some s
  | none => none

/-- JavaScript coercion `n || null` / `n || undefined` on an optional number:
0 is falsy and collapses to null. -/
def jsInt (o : Option Int) : Option Int :=
  match o with
  | some n => if n = 0 then none else some n
  | none => none

/-- SQL COALESCE on two nullable values: the first non-null one. -/
def coalesce {α : Type} (a b : Option α) : Option α :=
  match a with
  | some v => some v
  | none => b

/-- Device signals (services/fingerprint.ts, interface DeviceSignals).
`ip` is required; the client-side signals are optional. -/
structure DeviceSignals where
  ip : String
  timezone : Option String
  language : Option String
  screen_width : Option Int
  screen_height : Option Int
deriving DecidableEq, Repr

/-- Patch type modelling `Partial<DeviceSignals>` as accepted by
`updateDeferredLinkSignals` (only the four client-side fields are used). -/
structure SignalsPatch where
  timezone : Option String
  language : Option String
  screen_width : Option Int
  screen_height : Option Int
deriving DecidableEq, Repr

/-- A row of the `deferred_links` table (services/deferred.ts, interface
DeferredLink).  `claimed` is the INTEGER 0/1 column; times are integers. -/
structure DeferredLink where
  id : Nat
  app_id : String
  fingerprint : String
  deep_link_path : String
  referrer_token : Option String
  created_at : Int
  expires_at : Int
  claimed : Nat
  ip : Option String
  timezone : Option String
  language : Option String
  screen_width : Option Int
  screen_height : Option Int
deriving DecidableEq, Repr

/-- Timezone contribution of `calculateSignalScore`: +1 when both sides are
truthy and strictly equal. -/
def tzScore (stored claimed : DeviceSignals) : Nat :=
  match stored.timezone, claimed.timezone with
  | some s, some c => if s ≠ "" ∧ c ≠ "" ∧ s = c then 1 else 0
  | _, _ => 0

/-- Language contribution of `calculateSignalScore`. -/
def langScore (stored claimed : DeviceSignals) : Nat :=
  match stored.language, claimed.language with
  | some s, some c => if s ≠ "" ∧ c ≠ "" ∧ s = c then 1 else 0
  | _, _ => 0

/-- Screen-width contribution of `calculateSignalScore`: +1 when both sides
are truthy (nonzero) and differ by at most the tolerance. -/
def widthScore (stored claimed : DeviceSignals) (screenTolerance : Nat) : Nat :=
  match stored.screen_width, claimed.screen_width with
  | some a, some b => if a ≠ 0 ∧ b ≠ 0 ∧ (a - b).natAbs ≤ screenTolerance then 1 else 0
  | _, _ => 0

/-- Screen-height contribution of `calculateSignalScore`. -/
def heightScore (stored claimed : DeviceSignals) (screenTolerance : Nat) : Nat :=
  match stored.screen_height, claimed.screen_height with
  | some a, some b => if a ≠ 0 ∧ b ≠ 0 ∧ (a - b).natAbs ≤ screenTolerance then 1 else 0
  | _, _ => 0

/-- Model of `calculateSignalScore(stored, claimed, screenTolerance)` from
services/fingerprint.ts: the sum of the four guarded +1 contributions
(timezone, language, screen width, screen height). -/
def calculateSignalScore (stored claimed : DeviceSignals) (screenTolerance : Nat) : Nat :=
  tzScore stored claimed + langScore stored claimed +
    widthScore stored claimed screenTolerance + heightScore stored claimed screenTolerance

/-- The default `screenTolerance` argument of `calculateSignalScore`. -/
def screenToleranceDefault : Nat := 50

/-- The SQL `UPDATE deferred_links SET claimed = 1 WHERE id = ?` shared by
all three claim functions. -/
def markClaimed (id0 : Nat) (db : List DeferredLink) : List DeferredLink :=
  db.map (fun l => if l.id = id0 then { l with claimed := 1 } else l)

/-- Model of `updateDeferredLinkSignals(referrerToken, signals)` from
services/deferred.ts.  Each incoming field is first coerced with `|| null`,
then written with `COALESCE(incoming, column)` on every row matching
`referrer_token = ? AND claimed = 0`.  Returns `changes > 0` (whether any
row matched) together with the updated table. -/
def updateDeferredLinkSignals (referrerToken : String) (signals : SignalsPatch)
    (db : List DeferredLink) : Bool × List DeferredLink :=
  let tz := jsStr signals.timezone
  let lang := jsStr signals.language
  let w := jsInt signals.screen_width
  let h := jsInt signals.screen_height
  let hit := fun (l : DeferredLink) => decide (l.referrer_token = some referrerToken ∧ l.claimed = 0)
  (db.any hit,
   db.map (fun l =>
     if hit l then
       { l with
         timezone := coalesce tz l.timezone,
         language := coalesce lang l.language,
         screen_width := coalesce w l.screen_width,
         screen_height := coalesce h l.screen_height }
     else l))

/-- Model of `claimByToken(token)` from services/deferred.ts: select the first row
with `referrer_token = ? AND claimed = 0 AND expires_at > now`, then mark it
claimed.  Returns the pre-update row, as the source does. -/
def claimByToken (token : String) (now : Int) (db : List DeferredLink) :
    Option DeferredLink × List DeferredLink :=
  match db.find? (fun l =>
      decide (l.referrer_token = some token ∧ l.claimed = 0 ∧ now < l.expires_at)) with
  | none => (none, db)
  | some link => (some link, markClaimed link.id db)

/-- Insert into a list kept in descending `key` order (used to model SQL
`ORDER BY created_at DESC`). -/
def insertByKeyDesc {α : Type} (key : α → Int) (a : α) : List α → List α
  | [] => [a]
  | x :: xs => if key x ≤ key a then a :: x :: xs else x :: insertByKeyDesc key a xs

/-- Sort a list into descending `key` order. -/
def sortByKeyDesc {α : Type} (key : α → Int) : List α → List α
  | [] => []
  | x :: xs => insertByKeyDesc key x (sortByKeyDesc key xs)

/-- Model of `claimByFingerprint(fingerprint, appId)` from services/deferred.ts:
the most recent unclaimed, unexpired row matching the fingerprint and the
app (`ORDER BY created_at DESC LIMIT 1`), marked claimed. -/
def claimByFingerprint (fingerprint appId : String) (now : Int) (db : List DeferredLink) :
    Option DeferredLink × List DeferredLink :=
  match sortByKeyDesc (fun l => l.created_at) (db.filter (fun l =>
      decide (l.fingerprint = fingerprint ∧ l.app_id = appId ∧ l.claimed = 0 ∧
        now < l.expires_at))) with
  | [] => (none, db)
  | link :: _ => (some link, markClaimed link.id db)

/-- The `storedSignals` object built from a row inside `claimBySignals`:
`ip: link.ip || ''`, and `|| undefined` on the four client signals. -/
def storedSignalsOf (l : DeferredLink) : DeviceSignals :=
  { ip := (jsStr l.ip).getD "",
    timezone := jsStr l.timezone,
    language := jsStr l.language,
    screen_width := jsInt l.screen_width,
    screen_height := jsInt l.screen_height }

/-- The score a candidate row obtains in `claimBySignals` against the
claiming signals (tolerance left at its default of 50), as an integer so it
can be compared with `minScore` and the `-1` initial best score. -/
def rowScore (signals : DeviceSignals) (l : DeferredLink) : Int :=
  (calculateSignalScore (storedSignalsOf l) signals screenToleranceDefault : Int)

/-- The candidate loop of `claimBySignals`: scan the candidates keeping the
best match so far, updating when `score >= minScore && score > bestScore`. -/
def findBestSignal (signals : DeviceSignals) (minScore : Int) :
    List DeferredLink → Option DeferredLink → Int → Option DeferredLink × Int
  | [], bm, bs => (bm, bs)
  | l :: ls, bm, bs =>
    if minScore ≤ rowScore signals l ∧ bs < rowScore signals l then
      findBestSignal signals minScore ls (some l) (rowScore signals l)
    else
      findBestSignal signals minScore ls bm bs

/-- The selection performed by `claimBySignals` over the SQL candidate list
(already sorted by `created_at DESC`): null on zero candidates; otherwise
the best confident match, falling back to the most recent candidate when no
candidate reaches `minScore`. -/
def claimBySignalsPick (signals : DeviceSignals) (minScore : Int)
    (candidates : List DeferredLink) : Option DeferredLink :=
  match candidates with
  | [] => none
  | c :: _ =>
    match (findBestSignal signals minScore candidates none (-1)).1 with
    | some b => some b
    | none => some c

/-- The SQL candidate filter of `claimBySignals`: same IP, same app, not
claimed, not expired, created inside the match window (`windowMinutes`
already converted from milliseconds by the caller, as in the source). -/
def signalCandidatesFilter (signals : DeviceSignals) (appId : String)
    (windowMinutes now : Int) (db : List DeferredLink) : List DeferredLink :=
  db.filter (fun l =>
    decide (l.ip = some signals.ip ∧ l.app_id = appId ∧ l.claimed = 0 ∧
      now < l.expires_at ∧ now - windowMinutes < l.created_at))

/-- Candidate list of `claimBySignals`: the filter result in `created_at
DESC` order, as the SQL query delivers it. -/
def signalCandidates (signals : DeviceSignals) (appId : String)
    (windowMinutes now : Int) (db : List DeferredLink) : List DeferredLink :=
  sortByKeyDesc (fun l => l.created_at)
    (signalCandidatesFilter signals appId windowMinutes now db)

/-- Model of `claimBySignals(signals, appId, matchWindowMs, minScore)` from
services/deferred.ts: pick over the sorted candidates per the loop and the
fallback, and mark the winner claimed. -/
def claimBySignals (signals : DeviceSignals) (appId : String)
    (windowMinutes minScore now : Int) (db : List DeferredLink) :
    Option DeferredLink × List DeferredLink :=
  match claimBySignalsPick signals minScore
      (signalCandidates signals appId windowMinutes now db) with
  | some b => (some b, markClaimed b.id db)
  | none => (none, db)

/-- A row of the `referrals` table (services/referrals.ts, interface
Referral).  `status` and `milestone` are the TEXT columns, with schema
defaults of "pending" for both. -/
structure Referral where
  id : Nat
  app_id : String
  referrer_id : String
  referral_code : String
  referred_user_id : Option String
  status : String
  milestone : String
  created_at : Int
  completed_at : Option Int
  metadata : Option String
deriving DecidableEq, Repr

/-- Model of `getReferralByCode(code)`: first row with the given referral code. -/
def getReferralByCode (code : String) (db : List Referral) : Option Referral :=
  db.find? (fun r => decide (r.referral_code = code))

/-- Model of `getReferrerIdByCode(code)`: the referrer id of that row, coerced with
`|| null`. -/
def getReferrerIdByCode (code : String) (db : List Referral) : Option String :=
  match getReferralByCode code db with
  | some r => jsStr (some r.referrer_id)
  | none => none

/-- Model of `updateMilestone(referralCode, milestone)` from services/referrals.ts:
select the row with the code whose status is not 'expired'; if none, return
null without touching the table; otherwise set its milestone (by primary
key `id`) and return the updated row. -/
def updateMilestone (referralCode milestone : String) (db : List Referral) :
    Option Referral × List Referral :=
  match db.find? (fun r => decide (r.referral_code = referralCode ∧ r.status ≠ "expired")) with
  | none => (none, db)
  | some r =>
    (some { r with milestone := milestone },
     db.map (fun x => if x.id = r.id then { x with milestone := milestone } else x))

/-- Model of `completeReferral(referralCode, referredUserId, milestone)` from
services/referrals.ts: select the pending row with the code; if none,
return null; otherwise record the referred user, set status 'completed',
overwrite the milestone, stamp `completed_at`, and return the updated row. -/
def completeReferral (referralCode referredUserId milestone : String) (now : Int)
    (db : List Referral) : Option Referral × List Referral :=
  match db.find? (fun r => decide (r.referral_code = referralCode ∧ r.status = "pending")) with
  | none => (none, db)
  | some r =>
    (some { r with
        referred_user_id := some referredUserId,
        status := "completed",
        milestone := milestone,
        completed_at := some now },
     db.map (fun x =>
       if x.id = r.id then
         { x with
           referred_user_id := some referredUserId,
           status := "completed",
           milestone := milestone,
           completed_at := some now }
       else x))

/-- Model of `createReferral(appId, referrerId, metadata)` from services/referrals.ts.
The existing-row query `WHERE app_id = ? AND referrer_id = ? AND status =
'pending' ORDER BY created_at DESC LIMIT 1` is modelled as the head of the
descending sort of the pending rows for the key.  If a pending row exists it
is returned unchanged; otherwise a fresh row (generated id and code passed
in, schema defaults status = milestone = "pending") is inserted. -/
def createReferral (appId referrerId : String) (metadata : Option String)
    (newId : Nat) (newCode : String) (now : Int) (db : List Referral) :
    Referral × List Referral :=
  match sortByKeyDesc (fun r => r.created_at) (db.filter (fun r =>
      decide (r.app_id = appId ∧ r.referrer_id = referrerId ∧ r.status = "pending"))) with
  | existing :: _ => (existing, db)
  | [] =>
    let fresh : Referral :=
      { id := newId, app_id := appId, referrer_id := referrerId,
        referral_code := newCode, referred_user_id := none,
        status := "pending", milestone := "pending",
        created_at := now, completed_at := none, metadata := metadata }
    (fresh, db ++ [fresh])

/-- Model of `expireOldReferrals(daysOld)` from services/referrals.ts: set status
'expired' on pending rows created before the cutoff
(`datetime('now', '-daysOld days')`, modelled as an integer cutoff). -/
def expireOldReferrals (cutoff : Int) (db : List Referral) : Nat × List Referral :=
  let hit := fun (r : Referral) => decide (r.status = "pending" ∧ r.created_at < cutoff)
  ((db.filter hit).length,
   db.map (fun r => if hit r then { r with status := "expired" } else r))

/-- An `analytics` event as logged by `logEvent` in the claim handler. -/
structure Event where
  app_id : String
  event_type : String
  deep_link : String
  platform : String
  source : String
deriving DecidableEq, Repr

/-- The server state touched by the deferred-claim route: the two tables and
the analytics event log. -/
structure ServerState where
  deferred : List DeferredLink
  referrals : List Referral
  events : List Event
deriving DecidableEq, Repr

/-- The JSON body answered by `GET /api/deferred/claim`. -/
structure ClaimResponse where
  success : Bool
  error : Option String
  path : Option String
  referrer_id : Option String
  referral_code : Option String
deriving DecidableEq, Repr

/-- The character class `[A-Z0-9]` under the case-insensitive regex flag:
ASCII letters and digits. -/
def isReferralCodeChar (c : Char) : Bool :=
  c.isAlpha || c.isDigit

/-- The test `deep_link_path.match(/^\/referral\/([A-Z0-9]+)$/i)` from the
claim route: paths of the form `/referral/{code}` with a nonempty
alphanumeric code; returns the captured code. -/
def parseReferralPath (path : String) : Option String :=
  if path.data.take 10 = "/referral/".data then
    let code := path.data.drop 10
    if code ≠ [] ∧ code.all isReferralCodeChar then some (String.mk code) else none
  else none

/-- The token branch of `GET /api/deferred/claim` (routes/public/api.ts,
entered when a nonempty `token` query parameter is present): claim by
token; on failure answer a 404 body; on success log an `install` event
under the requesting app's id, auto-detect a `/referral/{code}` path, bump
that referral's milestone to "installed" ignoring the result, and answer
with the path plus the referrer id and referral code when available. -/
def handleDeferredClaimToken (appId token : String) (now : Int) (st : ServerState) :
    ClaimResponse × ServerState :=
  match claimByToken token now st.deferred with
  | (none, _) =>
    ({ success := false, error := some "Link not found or expired",
       path := none, referrer_id := none, referral_code := none }, st)
  | (some link, deferred2) =>
    let ev : Event :=
      { app_id := appId, event_type := "install", deep_link := link.deep_link_path,
        platform := "android", source := "deferred" }
    match parseReferralPath link.deep_link_path with
    | some code =>
      ({ success := true, error := none, path := some link.deep_link_path,
         referrer_id := getReferrerIdByCode code st.referrals,
         referral_code := some code },
       { deferred := deferred2,
         referrals := (updateMilestone code "installed" st.referrals).2,
         events := st.events ++ [ev] })
    | none =>
      ({ success := true, error := none, path := some link.deep_link_path,
         referrer_id := none, referral_code := none },
       { deferred := deferred2, referrals := st.referrals,
         events := st.events ++ [ev] })

/-- Uniqueness of non-null referrer tokens, as enforced by the schema's
UNIQUE constraint on `deferred_links.referrer_token`. -/
def tokensUnique (db : List DeferredLink) : Prop :=
  ∀ a ∈ db, ∀ b ∈ db, a.referrer_token ≠ none → a.referrer_token = b.referrer_token → a = b

/-- Uniqueness of referral primary keys, as enforced by the schema's
PRIMARY KEY constraint on `referrals.id`. -/
def referralIdsUnique (db : List Referral) : Prop :=
  ∀ a ∈ db, ∀ b ∈ db, a.id = b.id → a = b

lemma mem_insertByKeyDesc {α : Type} (key : α → Int) (a x : α) :
    ∀ l : List α, x ∈ insertByKeyDesc key a l ↔ x = a ∨ x ∈ l := by
  intro l
  induction l with
  | nil => simp [insertByKeyDesc]
  | cons y ys ih =>
    by_cases h : key y ≤ key a
    · simp [insertByKeyDesc, h]
    · simp only [insertByKeyDesc, if_neg h, List.mem_cons, ih]
      tauto

lemma mem_sortByKeyDesc {α : Type} (key : α → Int) (x : α) :
    ∀ l : List α, x ∈ sortByKeyDesc key l ↔ x ∈ l := by
  intro l
  induction l with
  | nil => simp [sortByKeyDesc]
  | cons y ys ih =>
    simp only [sortByKeyDesc, mem_insertByKeyDesc, ih, List.mem_cons]

lemma insertByKeyDesc_ne_nil {α : Type} (key : α → Int) (a : α) (l : List α) :
    insertByKeyDesc key a l ≠ [] := by
  cases l with
  | nil => simp [insertByKeyDesc]
  | cons y ys =>
    by_cases h : key y ≤ key a <;> simp [insertByKeyDesc, h]

lemma sortByKeyDesc_eq_nil {α : Type} (key : α → Int) (l : List α) :
    sortByKeyDesc key l = [] ↔ l = [] := by
  cases l with
  | nil => simp [sortByKeyDesc]
  | cons y ys =>
    simp only [sortByKeyDesc]
    exact iff_of_false (insertByKeyDesc_ne_nil key y _) (by simp)

lemma pairwise_insertByKeyDesc {α : Type} (key : α → Int) (a : α) :
    ∀ l : List α, l.Pairwise (fun x y => key y ≤ key x) →
      (insertByKeyDesc key a l).Pairwise (fun x y => key y ≤ key x) := by
  intro l
  induction l with
  | nil => simp [insertByKeyDesc]
  | cons y ys ih =>
    intro h
    rcases List.pairwise_cons.mp h with ⟨hy, hys⟩
    by_cases hle : key y ≤ key a
    · rw [insertByKeyDesc, if_pos hle]
      refine List.pairwise_cons.mpr ⟨?_, h⟩
      intro z hz
      rcases List.mem_cons.mp hz with rfl | hz
      · exact hle
      · exact le_trans (hy z hz) hle
    · rw [insertByKeyDesc, if_neg hle]
      refine List.pairwise_cons.mpr ⟨?_, ih hys⟩
      intro z hz
      rcases (mem_insertByKeyDesc key a z ys).mp hz with rfl | hz
      · exact le_of_lt (lt_of_not_le hle)
      · exact hy z hz

lemma pairwise_sortByKeyDesc {α : Type} (key : α → Int) :
    ∀ l : List α, (sortByKeyDesc key l).Pairwise (fun x y => key y ≤ key x) := by
  intro l
  induction l with
  | nil => simp [sortByKeyDesc]
  | cons y ys ih => exact pairwise_insertByKeyDesc key y _ ih

/-- Characterization of the candidate loop of `claimBySignals`: either no
element improves on the incoming best score (and the accumulator is
returned), or the loop returns the first element attaining the maximal
qualifying score. -/
lemma findBestSignal_spec (sg : DeviceSignals) (ms : Int) :
    ∀ (ls : List DeferredLink) (bm : Option DeferredLink) (bs : Int),
      ((∀ l ∈ ls, rowScore sg l < ms ∨ rowScore sg l ≤ bs) ∧
        findBestSignal sg ms ls bm bs = (bm, bs)) ∨
      (∃ p b q, ls = p ++ b :: q ∧ ms ≤ rowScore sg b ∧ bs < rowScore sg b ∧
        (∀ l ∈ p, rowScore sg l < rowScore sg b) ∧
        (∀ l ∈ q, rowScore sg l < ms ∨ rowScore sg l ≤ rowScore sg b) ∧
        findBestSignal sg ms ls bm bs = (some b, rowScore sg b)) := by
  intro ls
  induction ls with
  | nil =>
    intro bm bs
    left
    refine ⟨?_, rfl⟩
    intro l h
    cases h
  | cons x xs ih =>
    intro bm bs
    by_cases hc : ms ≤ rowScore sg x ∧ bs < rowScore sg x
    · have hstep : findBestSignal sg ms (x :: xs) bm bs =
          findBestSignal sg ms xs (some x) (rowScore sg x) := by
        simp [findBestSignal, hc]
      rcases ih (some x) (rowScore sg x) with ⟨hall, heq⟩ | ⟨p, b, q, hsplit, hms, hbs, hp, hq, heq⟩
      · right
        exact ⟨[], x, xs, rfl, hc.1, hc.2, by simp, hall, by rw [hstep]; exact heq⟩
      · right
        refine ⟨x :: p, b, q, by rw [hsplit, List.cons_append], hms, lt_trans hc.2 hbs, ?_, hq,
          by rw [hstep]; exact heq⟩
        intro l hl
        rcases List.mem_cons.mp hl with rfl | hl
        · exact hbs
        · exact hp l hl
    · have hstep : findBestSignal sg ms (x :: xs) bm bs = findBestSignal sg ms xs bm bs := by
        simp [findBestSignal, hc]
      rcases ih bm bs with ⟨hall, heq⟩ | ⟨p, b, q, hsplit, hms, hbs, hp, hq, heq⟩
      · left
        refine ⟨?_, by rw [hstep]; exact heq⟩
        intro l hl
        rcases List.mem_cons.mp hl with rfl | hl
        · rcases not_and_or.mp hc with h | h
          · exact Or.inl (lt_of_not_le h)
          · exact Or.inr (le_of_not_lt h)
        · exact hall l hl
      · right
        refine ⟨x :: p, b, q, by rw [hsplit, List.cons_append], hms, hbs, ?_, hq,
          by rw [hstep]; exact heq⟩
        intro l hl
        rcases List.mem_cons.mp hl with rfl | hl
        · rcases not_and_or.mp hc with h | h
          · exact lt_of_lt_of_le (lt_of_not_le h) hms
          · exact lt_of_le_of_lt (le_of_not_lt h) hbs
        · exact hp l hl

lemma rowScore_nonneg (sg : DeviceSignals) (l : DeferredLink) : 0 ≤ rowScore sg l := by
  exact Int.natCast_nonneg _

/-- The pick of `claimBySignals` always comes from the candidate list. -/
lemma claimBySignalsPick_mem (sg : DeviceSignals) (ms : Int) (cands : List DeferredLink)
    (b : DeferredLink) (h : claimBySignalsPick sg ms cands = some b) : b ∈ cands := by
  cases cands with
  | nil => simp [claimBySignalsPick] at h
  | cons c rest =>
    rcases findBestSignal_spec sg ms (c :: rest) none (-1) with ⟨_, heq⟩ |
      ⟨p, b0, q, hsplit, _, _, _, _, heq⟩
    · simp [claimBySignalsPick, heq] at h
      simp [h]
    · simp [claimBySignalsPick, heq] at h
      rw [← h, hsplit]
      exact List.mem_append.mpr (Or.inr (List.mem_cons_self b0 q))

lemma claimBySignalsPick_none_iff (sg : DeviceSignals) (ms : Int) (cands : List DeferredLink) :
    claimBySignalsPick sg ms cands = none ↔ cands = [] := by
  cases cands with
  | nil => simp [claimBySignalsPick]
  | cons c rest =>
    simp only [claimBySignalsPick]
    cases hfb : (findBestSignal sg ms (c :: rest) none (-1)).1 <;> simp

/-- When some candidate reaches the minimum score, the pick has maximal
score among all candidates and, among equal scores, the most recent
creation time (the candidates being sorted by `created_at DESC`). -/
lemma claimBySignalsPick_confident (sg : DeviceSignals) (ms : Int)
    (cands : List DeferredLink) (b : DeferredLink)
    (hsorted : cands.Pairwise (fun x y => y.created_at ≤ x.created_at))
    (hpick : claimBySignalsPick sg ms cands = some b)
    (hex : ∃ c ∈ cands, ms ≤ rowScore sg c) :
    ms ≤ rowScore sg b ∧ (∀ c ∈ cands, rowScore sg c ≤ rowScore sg b) ∧
      (∀ c ∈ cands, rowScore sg c = rowScore sg b → c.created_at ≤ b.created_at) := by
  rcases hex with ⟨c0, hc0, hc0ms⟩
  cases cands with
  | nil => cases hc0
  | cons x xs =>
    rcases findBestSignal_spec sg ms (x :: xs) none (-1) with ⟨hall, heq⟩ |
      ⟨p, b0, q, hsplit, hms, _, hp, hq, heq⟩
    · exfalso
      rcases hall c0 hc0 with h | h
      · exact absurd hc0ms (not_le.mpr h)
      · exact absurd (rowScore_nonneg sg c0) (not_le.mpr (lt_of_le_of_lt h (by norm_num)))
    · have hb : b0 = b := by
        have hps : claimBySignalsPick sg ms (x :: xs) = some b0 := by
          simp [claimBySignalsPick, heq]
        rw [hps] at hpick
        exact Option.some_injective _ hpick
      subst hb
      have hmax : ∀ c ∈ x :: xs, rowScore sg c ≤ rowScore sg b0 := by
        intro c hc
        rw [hsplit] at hc
        rcases List.mem_append.mp hc with hcp | hcbq
        · exact le_of_lt (hp c hcp)
        · rcases List.mem_cons.mp hcbq with rfl | hcq
          · exact le_refl _
          · rcases hq c hcq with h | h
            · exact le_trans (le_of_lt h) hms
            · exact h
      refine ⟨hms, hmax, ?_⟩
      intro c hc hceq
      rw [hsplit] at hc hsorted
      rcases List.mem_append.mp hc with hcp | hcbq
      · exact absurd hceq (ne_of_lt (hp c hcp))
      · rcases List.mem_cons.mp hcbq with rfl | hcq
        · exact le_refl _
        · have hsub : (b0 :: q).Pairwise (fun x y => y.created_at ≤ x.created_at) :=
            hsorted.sublist (List.sublist_append_right p (b0 :: q))
          exact (List.pairwise_cons.mp hsub).1 c hcq

/-- When no candidate reaches the minimum score, the pick is the head of
the sorted candidate list, hence has maximal `created_at`. -/
lemma claimBySignalsPick_fallback (sg : DeviceSignals) (ms : Int)
    (cands : List DeferredLink) (b : DeferredLink)
    (hsorted : cands.Pairwise (fun x y => y.created_at ≤ x.created_at))
    (hpick : claimBySignalsPick sg ms cands = some b)
    (hall : ∀ c ∈ cands, rowScore sg c < ms) :
    ∀ c ∈ cands, c.created_at ≤ b.created_at := by
  cases cands with
  | nil => intro c hc; cases hc
  | cons x xs =>
    rcases findBestSignal_spec sg ms (x :: xs) none (-1) with ⟨_, heq⟩ |
      ⟨p, b0, q, hsplit, hms, _, _, _, heq⟩
    · have hb : x = b := by
        have : claimBySignalsPick sg ms (x :: xs) = some x := by
          simp [claimBySignalsPick, heq]
        rw [this] at hpick
        exact Option.some_injective _ hpick
      subst hb
      intro c hc
      rcases List.mem_cons.mp hc with rfl | hc
      · exact le_refl _
      · exact (List.pairwise_cons.mp hsorted).1 c hc
    · exfalso
      have hbmem : b0 ∈ x :: xs := by
        rw [hsplit]
        exact List.mem_append.mpr (Or.inr (List.mem_cons_self b0 q))
      exact absurd hms (not_le.mpr (hall b0 hbmem))

lemma claimBySignals_fst (sg : DeviceSignals) (appId : String) (win ms now : Int)
    (db : List DeferredLink) :
    (claimBySignals sg appId win ms now db).1 =
      claimBySignalsPick sg ms (signalCandidates sg appId win now db) := by
  unfold claimBySignals
  cases hp : claimBySignalsPick sg ms (signalCandidates sg appId win now db) <;> simp [hp]

/-- C3: over the unclaimed, unexpired candidates sharing the request's IP
and app inside the match window, `claimBySignals` picks, among candidates
with score at least `minScore`, one of maximal score, most recent on score
ties; when at least one candidate exists but none reaches `minScore` it
falls back to a most-recent candidate; it returns null exactly when there
are zero candidates. -/
theorem claimBySignals_selection_rule :
    ∀ (sg : DeviceSignals) (appId : String) (win ms now : Int) (db : List DeferredLink),
      ((claimBySignals sg appId win ms now db).1 = none ↔
        signalCandidatesFilter sg appId win now db = []) ∧
      (∀ b, (claimBySignals sg appId win ms now db).1 = some b →
        b ∈ signalCandidatesFilter sg appId win now db ∧
        ((∃ c ∈ signalCandidatesFilter sg appId win now db, ms ≤ rowScore sg c) →
          ms ≤ rowScore sg b ∧
          (∀ c ∈ signalCandidatesFilter sg appId win now db, rowScore sg c ≤ rowScore sg b) ∧
          (∀ c ∈ signalCandidatesFilter sg appId win now db,
            rowScore sg c = rowScore sg b → c.created_at ≤ b.created_at)) ∧
        ((∀ c ∈ signalCandidatesFilter sg appId win now db, rowScore sg c < ms) →
          ∀ c ∈ signalCandidatesFilter sg appId win now db, c.created_at ≤ b.created_at)) := by
  intro sg appId win ms now db
  have hfst := claimBySignals_fst sg appId win ms now db
  have hmem : ∀ x, x ∈ signalCandidates sg appId win now db ↔
      x ∈ signalCandidatesFilter sg appId win now db :=
    fun x => mem_sortByKeyDesc _ x _
  have hsorted : (signalCandidates sg appId win now db).Pairwise
      (fun x y => y.created_at ≤ x.created_at) := pairwise_sortByKeyDesc _ _
  constructor
  · rw [hfst, claimBySignalsPick_none_iff]
    simp only [signalCandidates]
    exact sortByKeyDesc_eq_nil _ _
  · intro b hb
    rw [hfst] at hb
    refine ⟨(hmem b).mp (claimBySignalsPick_mem _ _ _ _ hb), ?_, ?_⟩
    · rintro ⟨c, hcF, hcms⟩
      have hres := claimBySignalsPick_confident sg ms _ b hsorted hb ⟨c, (hmem c).mpr hcF, hcms⟩
      exact ⟨hres.1, fun c2 hc2 => hres.2.1 c2 ((hmem c2).mpr hc2),
        fun c2 hc2 => hres.2.2 c2 ((hmem c2).mpr hc2)⟩
    · intro hall
      have hfb := claimBySignalsPick_fallback sg ms _ b hsorted hb
        (fun c hc => hall c ((hmem c).mp hc))
      exact fun c hc => hfb c ((hmem c).mpr hc)

/-- Concrete signals used to exercise `claimBySignals_selection_rule`. -/
def c3sig : DeviceSignals :=
  { ip := "9.9.9.9", timezone := some "UTC", language := none,
    screen_width := some 403, screen_height := none }

/-- Concrete older candidate row for the C3 witness. -/
def c3link1 : DeferredLink :=
  { id := 1, app_id := "app1", fingerprint := "fp", deep_link_path := "/p1",
    referrer_token := some "t1", created_at := 10, expires_at := 1000, claimed := 0,
    ip := some "9.9.9.9", timezone := some "UTC", language := none,
    screen_width := some 400, screen_height := none }

/-- Concrete newer candidate row for the C3 witness. -/
def c3link2 : DeferredLink :=
  { id := 2, app_id := "app1", fingerprint := "fp", deep_link_path := "/p2",
    referrer_token := some "t2", created_at := 20, expires_at := 1000, claimed := 0,
    ip := some "9.9.9.9", timezone := some "UTC", language := none,
    screen_width := some 405, screen_height := none }

theorem claimBySignals_selection_rule_witness :
    c3link2 ∈ signalCandidatesFilter c3sig "app1" 100 5 [c3link1, c3link2] ∧
      2 ≤ rowScore c3sig c3link2 ∧
      (∀ c ∈ signalCandidatesFilter c3sig "app1" 100 5 [c3link1, c3link2],
        rowScore c3sig c ≤ rowScore c3sig c3link2) :=
  have h := (claimBySignals_selection_rule c3sig "app1" 100 2 5 [c3link1, c3link2]).2
    c3link2 (by decide)
  have hc := h.2.1 ⟨c3link2, by decide, by decide⟩
  ⟨h.1, hc.1, hc.2.1⟩

lemma markClaimed_claimed (id0 : Nat) (db : List DeferredLink) :
    ∀ l ∈ markClaimed id0 db, l.id = id0 → l.claimed = 1 := by
  intro l hl
  rcases List.mem_map.mp hl with ⟨l0, hl0, rfl⟩
  by_cases h : l0.id = id0 <;> simp [h]

lemma markClaimed_unclaimed (id0 : Nat) (db : List DeferredLink) :
    ∀ l ∈ markClaimed id0 db, l.claimed = 0 → l ∈ db ∧ l.id ≠ id0 := by
  intro l hl hcl
  rcases List.mem_map.mp hl with ⟨l0, hl0, rfl⟩
  by_cases h : l0.id = id0
  · simp [h] at hcl
  · simp only [if_neg h] at hcl ⊢
    exact ⟨hl0, h⟩

lemma claimByToken_eq_none (token : String) (now : Int) (db : List DeferredLink)
    (h : db.find? (fun l =>
      decide (l.referrer_token = some token ∧ l.claimed = 0 ∧ now < l.expires_at)) = none) :
    claimByToken token now db = (none, db) := by
  unfold claimByToken
  rw [h]

lemma claimByToken_eq_some (token : String) (now : Int) (db : List DeferredLink)
    (l0 : DeferredLink) (h : db.find? (fun l =>
      decide (l.referrer_token = some token ∧ l.claimed = 0 ∧ now < l.expires_at)) = some l0) :
    claimByToken token now db = (some l0, markClaimed l0.id db) := by
  unfold claimByToken
  rw [h]

lemma claimByFingerprint_eq_some (fp appId : String) (now : Int) (db : List DeferredLink)
    (x : DeferredLink) (xs : List DeferredLink)
    (h : sortByKeyDesc (fun l => l.created_at) (db.filter (fun l =>
      decide (l.fingerprint = fp ∧ l.app_id = appId ∧ l.claimed = 0 ∧
        now < l.expires_at))) = x :: xs) :
    claimByFingerprint fp appId now db = (some x, markClaimed x.id db) := by
  unfold claimByFingerprint
  rw [h]

lemma claimByToken_success (tok : String) (now : Int) (db db2 : List DeferredLink)
    (link : DeferredLink) (h : claimByToken tok now db = (some link, db2)) :
    link ∈ db ∧ link.claimed = 0 ∧ link.referrer_token = some tok ∧
      now < link.expires_at ∧ db2 = markClaimed link.id db := by
  cases hfind : db.find? (fun l =>
      decide (l.referrer_token = some tok ∧ l.claimed = 0 ∧ now < l.expires_at)) with
  | none =>
    rw [claimByToken_eq_none tok now db hfind] at h
    simp only [Prod.mk.injEq] at h
    exact absurd h.1 (by simp)
  | some l0 =>
    rw [claimByToken_eq_some tok now db l0 hfind] at h
    simp only [Prod.mk.injEq] at h
    have hl0 : l0 = link := Option.some_injective _ h.1
    subst hl0
    have hprop : l0.referrer_token = some tok ∧ l0.claimed = 0 ∧ now < l0.expires_at := by
      have hp := List.find?_some hfind
      simpa using hp
    exact ⟨List.mem_of_find?_eq_some hfind, hprop.2.1, hprop.1, hprop.2.2, h.2.symm⟩

lemma claimByFingerprint_success (fp appId : String) (now : Int) (db db2 : List DeferredLink)
    (link : DeferredLink) (h : claimByFingerprint fp appId now db = (some link, db2)) :
    link ∈ db ∧ link.claimed = 0 ∧ db2 = markClaimed link.id db := by
  cases hs : sortByKeyDesc (fun l => l.created_at) (db.filter (fun l =>
      decide (l.fingerprint = fp ∧ l.app_id = appId ∧ l.claimed = 0 ∧
        now < l.expires_at))) with
  | nil =>
    unfold claimByFingerprint at h
    rw [hs] at h
    simp only [Prod.mk.injEq] at h
    exact absurd h.1 (by simp)
  | cons x xs =>
    rw [claimByFingerprint_eq_some fp appId now db x xs hs] at h
    simp only [Prod.mk.injEq] at h
    have hx : x = link := Option.some_injective _ h.1
    subst hx
    have hmem : x ∈ sortByKeyDesc (fun l => l.created_at) (db.filter (fun l =>
        decide (l.fingerprint = fp ∧ l.app_id = appId ∧ l.claimed = 0 ∧
          now < l.expires_at))) := by
      rw [hs]
      exact List.mem_cons_self x xs
    rcases List.mem_filter.mp ((mem_sortByKeyDesc _ x _).mp hmem) with ⟨hxdb, hxp⟩
    have hxp2 := decide_eq_true_eq.mp hxp
    exact ⟨hxdb, hxp2.2.2.1, h.2.symm⟩

lemma claimBySignals_success (sg : DeviceSignals) (appId : String) (win ms now : Int)
    (db db2 : List DeferredLink) (link : DeferredLink)
    (h : claimBySignals sg appId win ms now db = (some link, db2)) :
    link ∈ db ∧ link.claimed = 0 ∧ db2 = markClaimed link.id db := by
  cases hp : claimBySignalsPick sg ms (signalCandidates sg appId win now db) with
  | none =>
    have h1 : claimBySignals sg appId win ms now db = (none, db) := by
      unfold claimBySignals
      rw [hp]
    rw [h1] at h
    simp only [Prod.mk.injEq] at h
    exact absurd h.1 (by simp)
  | some b =>
    have h1 : claimBySignals sg appId win ms now db = (some b, markClaimed b.id db) := by
      unfold claimBySignals
      rw [hp]
    rw [h1] at h
    simp only [Prod.mk.injEq] at h
    have hb : b = link := Option.some_injective _ h.1
    subst hb
    have hmem := claimBySignalsPick_mem sg ms _ b hp
    rcases List.mem_filter.mp ((mem_sortByKeyDesc _ b _).mp hmem) with ⟨hbdb, hbp⟩
    have hbp2 := decide_eq_true_eq.mp hbp
    exact ⟨hbdb, hbp2.2.2.1, h.2.symm⟩

lemma claimByToken_after_mark (db : List DeferredLink) (link : DeferredLink) (t : String)
    (hmem : link ∈ db) (htok : link.referrer_token = some t) (huniq : tokensUnique db) :
    ∀ now2, (claimByToken t now2 (markClaimed link.id db)).1 = none := by
  intro now2
  have hnone : (markClaimed link.id db).find? (fun l =>
      decide (l.referrer_token = some t ∧ l.claimed = 0 ∧ now2 < l.expires_at)) = none := by
    rw [List.find?_eq_none]
    intro l hl
    simp only [decide_eq_true_eq, not_and]
    intro htok2 hcl _
    rcases markClaimed_unclaimed link.id db l hl hcl with ⟨hldb, hlid⟩
    have heq : l = link := huniq l hldb link hmem (by rw [htok2]; exact Option.noConfusion)
      (by rw [htok2, htok])
    exact hlid (by rw [heq])
  rw [claimByToken_eq_none t now2 _ hnone]

/-- C2: a claim that succeeds through any of the three operations
(`claimByToken`, `claimByFingerprint`, `claimBySignals`) returns a
previously unclaimed record and marks exactly that record claimed;
afterwards no claim through any of the three operations can resolve to the
same record again, because every claim lookup filters on `claimed = 0`, and
a repeat token claim returns null outright (under the schema's UNIQUE
referrer token). -/
theorem claim_at_most_once :
    ∀ (db db2 : List DeferredLink) (now : Int) (link : DeferredLink),
      ((∃ tok, claimByToken tok now db = (some link, db2)) ∨
       (∃ fp app, claimByFingerprint fp app now db = (some link, db2)) ∨
       (∃ sg app win ms, claimBySignals sg app win ms now db = (some link, db2))) →
      (link ∈ db ∧ link.claimed = 0 ∧ db2 = markClaimed link.id db) ∧
      (∀ l ∈ db2, l.id = link.id → l.claimed = 1) ∧
      (∀ tok2 now2 l2, (claimByToken tok2 now2 db2).1 = some l2 → l2.id ≠ link.id) ∧
      (∀ fp app now2 l2, (claimByFingerprint fp app now2 db2).1 = some l2 → l2.id ≠ link.id) ∧
      (∀ sg app win ms now2 l2,
        (claimBySignals sg app win ms now2 db2).1 = some l2 → l2.id ≠ link.id) ∧
      (tokensUnique db → ∀ t now2, link.referrer_token = some t →
        (claimByToken t now2 db2).1 = none) := by
  intro db db2 now link hinit
  have hcore : link ∈ db ∧ link.claimed = 0 ∧ db2 = markClaimed link.id db := by
    rcases hinit with ⟨tok, h⟩ | ⟨fp, app, h⟩ | ⟨sg, app, win, ms, h⟩
    · have hs := claimByToken_success tok now db db2 link h
      exact ⟨hs.1, hs.2.1, hs.2.2.2.2⟩
    · exact claimByFingerprint_success fp app now db db2 link h
    · exact claimBySignals_success sg app win ms now db db2 link h
  obtain ⟨hmem, hcl, hdb2⟩ := hcore
  subst hdb2
  refine ⟨⟨hmem, hcl, rfl⟩, markClaimed_claimed link.id db, ?_, ?_, ?_, ?_⟩
  · intro tok2 now2 l2 h2
    have hs := claimByToken_success tok2 now2 (markClaimed link.id db) _ l2 (by rw [← h2])
    exact (markClaimed_unclaimed link.id db l2 hs.1 hs.2.1).2
  · intro fp app now2 l2 h2
    have hs := claimByFingerprint_success fp app now2 (markClaimed link.id db) _ l2
      (by rw [← h2])
    exact (markClaimed_unclaimed link.id db l2 hs.1 hs.2.1).2
  · intro sg app win ms now2 l2 h2
    have hs := claimBySignals_success sg app win ms now2 (markClaimed link.id db) _ l2
      (by rw [← h2])
    exact (markClaimed_unclaimed link.id db l2 hs.1 hs.2.1).2
  · intro huniq t now2 htok
    exact claimByToken_after_mark db link t hmem htok huniq now2

/-- Concrete row for the C2 witness: claimed first by fingerprint, then a
token claim for the same record finds nothing. -/
def c2link : DeferredLink :=
  { id := 5, app_id := "app1", fingerprint := "fp", deep_link_path := "/p",
    referrer_token := some "tokA", created_at := 0, expires_at := 100, claimed := 0,
    ip := some "1.2.3.4", timezone := none, language := none,
    screen_width := none, screen_height := none }

theorem claim_at_most_once_witness :
    (claimByToken "tokA" 7 (claimByFingerprint "fp" "app1" 3 [c2link]).2).1 = none :=
  (claim_at_most_once [c2link] (claimByFingerprint "fp" "app1" 3 [c2link]).2 3 c2link
    (Or.inr (Or.inl ⟨"fp", "app1", by decide⟩))).2.2.2.2.2
    (by
      intro a ha b hb _ _
      rw [List.mem_singleton.mp ha, List.mem_singleton.mp hb])
    "tokA" 7 (by decide)

lemma forall₂_map_of_forall {α β : Type} (r : α → β → Prop) (f : α → β) :
    ∀ l : List α, (∀ x ∈ l, r x (f x)) → List.Forall₂ r l (l.map f) := by
  intro l
  induction l with
  | nil => intro _; simp
  | cons x xs ih =>
    intro h
    rw [List.map_cons]
    exact List.Forall₂.cons (h x (List.mem_cons_self x xs))
      (ih fun y hy => h y (List.mem_cons.mpr (Or.inr hy)))

/-- Concrete row for the C1 counterexample: unclaimed, matched by token,
with a previously captured (non-null) timezone. -/
def c1link : DeferredLink :=
  { id := 1, app_id := "app1", fingerprint := "fp", deep_link_path := "/p",
    referrer_token := some "tokC", created_at := 0, expires_at := 100, claimed := 0,
    ip := some "1.2.3.4", timezone := some "America/New_York", language := none,
    screen_width := none, screen_height := none }

/-- Concrete patch for the C1 counterexample: a new non-null timezone. -/
def c1patch : SignalsPatch :=
  { timezone := some "Europe/Paris", language := none,
    screen_width := none, screen_height := none }

/-- C1 (counterexample): `updateDeferredLinkSignals` does overwrite a
previously captured non-null value — the stored timezone
"America/New_York" of the unclaimed record matched by the token is
replaced by the incoming "Europe/Paris", refuting the claim that only
null/unset fields are updated. -/
theorem patchSignals_overwrites_counterexample :
    c1link.timezone = some "America/New_York" ∧ c1link.claimed = 0 ∧
    c1link.referrer_token = some "tokC" ∧
    (updateDeferredLinkSignals "tokC" c1patch [c1link]).1 = true ∧
    (updateDeferredLinkSignals "tokC" c1patch [c1link]).2.map (fun l => l.timezone) =
      [some "Europe/Paris"] := by decide

/-- C1 (amended): `updateDeferredLinkSignals` reports a match exactly when
an unclaimed record carries the token; it mutates only records matching the
token that are still unclaimed, touching only the four signal fields; a
null/absent patch field never overwrites a stored value, while a non-null
patch field replaces the stored value (even a previously captured one). -/
theorem patchSignals_amended :
    ∀ (tok : String) (sig : SignalsPatch) (db : List DeferredLink),
      ((updateDeferredLinkSignals tok sig db).1 = true ↔
        ∃ l ∈ db, l.referrer_token = some tok ∧ l.claimed = 0) ∧
      List.Forall₂ (fun old new =>
        (¬(old.referrer_token = some tok ∧ old.claimed = 0) → new = old) ∧
        (old.referrer_token = some tok ∧ old.claimed = 0 →
          new.id = old.id ∧ new.app_id = old.app_id ∧ new.claimed = old.claimed ∧
          new.referrer_token = old.referrer_token ∧
          new.deep_link_path = old.deep_link_path ∧ new.expires_at = old.expires_at ∧
          (jsStr sig.timezone = none → new.timezone = old.timezone) ∧
          (∀ v, jsStr sig.timezone = some v → new.timezone = some v) ∧
          (jsStr sig.language = none → new.language = old.language) ∧
          (∀ v, jsStr sig.language = some v → new.language = some v) ∧
          (jsInt sig.screen_width = none → new.screen_width = old.screen_width) ∧
          (∀ v, jsInt sig.screen_width = some v → new.screen_width = some v) ∧
          (jsInt sig.screen_height = none → new.screen_height = old.screen_height) ∧
          (∀ v, jsInt sig.screen_height = some v → new.screen_height = some v)))
        db (updateDeferredLinkSignals tok sig db).2 := by
  intro tok sig db
  constructor
  · simp only [updateDeferredLinkSignals, List.any_eq_true, decide_eq_true_eq]
  · simp only [updateDeferredLinkSignals]
    apply forall₂_map_of_forall
    intro l hl
    by_cases h : l.referrer_token = some tok ∧ l.claimed = 0
    · have hb : decide (l.referrer_token = some tok ∧ l.claimed = 0) = true :=
        decide_eq_true_eq.mpr h
      constructor
      · intro hne
        exact absurd h hne
      · intro _
        rw [if_pos hb]
        refine ⟨rfl, rfl, rfl, rfl, rfl, rfl, ?_, ?_, ?_, ?_, ?_, ?_, ?_, ?_⟩ <;>
          first
            | (intro hv; simp [hv, coalesce])
            | (intro v hv; simp [hv, coalesce])
    · have hb : decide (l.referrer_token = some tok ∧ l.claimed = 0) = false := by
        simpa using h
      constructor
      · intro _
        rw [if_neg (by rw [hb]; exact Bool.false_ne_true)]
      · intro hcontra
        exact absurd hcontra h

theorem patchSignals_amended_witness :
    (updateDeferredLinkSignals "tokC" c1patch [c1link]).1 = true :=
  (patchSignals_amended "tokC" c1patch [c1link]).1.mpr
    ⟨c1link, List.mem_singleton.mpr rfl, by decide⟩

lemma tzScore_le_one (s c : DeviceSignals) : tzScore s c ≤ 1 := by
  cases hs : s.timezone <;> cases hc : c.timezone <;> simp [tzScore, hs, hc]
  split <;> simp

lemma langScore_le_one (s c : DeviceSignals) : langScore s c ≤ 1 := by
  cases hs : s.language <;> cases hc : c.language <;> simp [langScore, hs, hc]
  split <;> simp

lemma widthScore_le_one (s c : DeviceSignals) (tol : Nat) : widthScore s c tol ≤ 1 := by
  cases hs : s.screen_width <;> cases hc : c.screen_width <;> simp [widthScore, hs, hc]
  split <;> simp

lemma heightScore_le_one (s c : DeviceSignals) (tol : Nat) : heightScore s c tol ≤ 1 := by
  cases hs : s.screen_height <;> cases hc : c.screen_height <;> simp [heightScore, hs, hc]
  split <;> simp

/-- C4: the signal score is an integer between 0 and 4 and each of the four
dimensions contributes 0 whenever the corresponding field is missing on
either side — a missing field is never penalized and never rewarded. -/
theorem calculateSignalScore_bounds :
    ∀ (stored claimed : DeviceSignals) (tol : Nat),
      calculateSignalScore stored claimed tol ≤ 4 ∧
      ((stored.timezone = none ∨ claimed.timezone = none) → tzScore stored claimed = 0) ∧
      ((stored.language = none ∨ claimed.language = none) → langScore stored claimed = 0) ∧
      ((stored.screen_width = none ∨ claimed.screen_width = none) →
        widthScore stored claimed tol = 0) ∧
      ((stored.screen_height = none ∨ claimed.screen_height = none) →
        heightScore stored claimed tol = 0) ∧
      calculateSignalScore stored claimed tol =
        tzScore stored claimed + langScore stored claimed +
          widthScore stored claimed tol + heightScore stored claimed tol := by
  intro s c tol
  refine ⟨?_, ?_, ?_, ?_, ?_, rfl⟩
  · have h1 := tzScore_le_one s c
    have h2 := langScore_le_one s c
    have h3 := widthScore_le_one s c tol
    have h4 := heightScore_le_one s c tol
    unfold calculateSignalScore
    omega
  · rintro (h | h)
    · cases hc : c.timezone <;> simp [tzScore, h, hc]
    · cases hs : s.timezone <;> simp [tzScore, h, hs]
  · rintro (h | h)
    · cases hc : c.language <;> simp [langScore, h, hc]
    · cases hs : s.language <;> simp [langScore, h, hs]
  · rintro (h | h)
    · cases hc : c.screen_width <;> simp [widthScore, h, hc]
    · cases hs : s.screen_width <;> simp [widthScore, h, hs]
  · rintro (h | h)
    · cases hc : c.screen_height <;> simp [heightScore, h, hc]
    · cases hs : s.screen_height <;> simp [heightScore, h, hs]

theorem calculateSignalScore_bounds_witness :
    calculateSignalScore
      { ip := "", timezone := some "UTC", language := some "en",
        screen_width := some 100, screen_height := some 100 }
      { ip := "", timezone := some "UTC", language := some "en",
        screen_width := some 100, screen_height := some 100 } 50 ≤ 4 ∧
    tzScore
      { ip := "", timezone := none, language := none,
        screen_width := none, screen_height := none }
      { ip := "", timezone := some "UTC", language := none,
        screen_width := none, screen_height := none } = 0 :=
  ⟨(calculateSignalScore_bounds
      { ip := "", timezone := some "UTC", language := some "en",
        screen_width := some 100, screen_height := some 100 }
      { ip := "", timezone := some "UTC", language := some "en",
        screen_width := some 100, screen_height := some 100 } 50).1,
   (calculateSignalScore_bounds
      { ip := "", timezone := none, language := none,
        screen_width := none, screen_height := none }
      { ip := "", timezone := some "UTC", language := none,
        screen_width := none, screen_height := none } 50).2.1 (Or.inl rfl)⟩

/-- C5: with both screen dimensions present (and truthy), a difference of
exactly the tolerance scores +1 for that dimension while a difference of
tolerance + 1 scores 0, for width and height alike. -/
theorem tolerance_boundary :
    ∀ (tol : Nat) (a b : Int) (ip1 ip2 : String), a ≠ 0 → b ≠ 0 →
      ((a - b).natAbs = tol →
        calculateSignalScore
          { ip := ip1, timezone := none, language := none,
            screen_width := some a, screen_height := none }
          { ip := ip2, timezone := none, language := none,
            screen_width := some b, screen_height := none } tol = 1 ∧
        calculateSignalScore
          { ip := ip1, timezone := none, language := none,
            screen_width := none, screen_height := some a }
          { ip := ip2, timezone := none, language := none,
            screen_width := none, screen_height := some b } tol = 1) ∧
      ((a - b).natAbs = tol + 1 →
        calculateSignalScore
          { ip := ip1, timezone := none, language := none,
            screen_width := some a, screen_height := none }
          { ip := ip2, timezone := none, language := none,
            screen_width := some b, screen_height := none } tol = 0 ∧
        calculateSignalScore
          { ip := ip1, timezone := none, language := none,
            screen_width := none, screen_height := some a }
          { ip := ip2, timezone := none, language := none,
            screen_width := none, screen_height := some b } tol = 0) := by
  intro tol a b ip1 ip2 ha hb
  constructor
  · intro hd
    constructor <;>
      simp [calculateSignalScore, tzScore, langScore, widthScore, heightScore, ha, hb, hd]
  · intro hd
    constructor <;>
      simp [calculateSignalScore, tzScore, langScore, widthScore, heightScore, ha, hb, hd]

theorem tolerance_boundary_witness :
    calculateSignalScore
      { ip := "", timezone := none, language := none,
        screen_width := some 400, screen_height := none }
      { ip := "", timezone := none, language := none,
        screen_width := some 450, screen_height := none } 50 = 1 ∧
    calculateSignalScore
      { ip := "", timezone := none, language := none,
        screen_width := some 400, screen_height := none }
      { ip := "", timezone := none, language := none,
        screen_width := some 451, screen_height := none } 50 = 0 :=
  ⟨((tolerance_boundary 50 400 450 "" "" (by decide) (by decide)).1 (by decide)).1,
   ((tolerance_boundary 50 400 451 "" "" (by decide) (by decide)).2 (by decide)).1⟩

lemma updateMilestone_eq_none (code m : String) (db : List Referral)
    (h : db.find? (fun r => decide (r.referral_code = code ∧ r.status ≠ "expired")) = none) :
    updateMilestone code m db = (none, db) := by
  unfold updateMilestone
  rw [h]

lemma updateMilestone_eq_some (code m : String) (db : List Referral) (r : Referral)
    (h : db.find? (fun r => decide (r.referral_code = code ∧ r.status ≠ "expired")) = some r) :
    updateMilestone code m db = (some { r with milestone := m },
      db.map (fun x => if x.id = r.id then { x with milestone := m } else x)) := by
  unfold updateMilestone
  rw [h]

lemma completeReferral_eq_none (code uid m : String) (now : Int) (db : List Referral)
    (h : db.find? (fun r => decide (r.referral_code = code ∧ r.status = "pending")) = none) :
    completeReferral code uid m now db = (none, db) := by
  unfold completeReferral
  rw [h]

lemma completeReferral_eq_some (code uid m : String) (now : Int) (db : List Referral)
    (r : Referral)
    (h : db.find? (fun r => decide (r.referral_code = code ∧ r.status = "pending")) = some r) :
    completeReferral code uid m now db =
      (some { r with referred_user_id := some uid, status := "completed",
                     milestone := m, completed_at := some now },
       db.map (fun x =>
         if x.id = r.id then
           { x with referred_user_id := some uid, status := "completed",
                    milestone := m, completed_at := some now }
         else x)) := by
  unfold completeReferral
  rw [h]

/-- The fresh row inserted by `createReferral` when no pending row exists
for the (app, referrer) key: the schema defaults give status "pending" and
milestone "pending". -/
def freshReferral (appId referrerId : String) (metadata : Option String)
    (newId : Nat) (newCode : String) (now : Int) : Referral :=
  { id := newId, app_id := appId, referrer_id := referrerId,
    referral_code := newCode, referred_user_id := none,
    status := "pending", milestone := "pending",
    created_at := now, completed_at := none, metadata := metadata }

lemma createReferral_eq_existing (appId referrerId : String) (metadata : Option String)
    (newId : Nat) (newCode : String) (now : Int) (db : List Referral)
    (e : Referral) (rest : List Referral)
    (h : sortByKeyDesc (fun r => r.created_at) (db.filter (fun r =>
      decide (r.app_id = appId ∧ r.referrer_id = referrerId ∧ r.status = "pending"))) =
        e :: rest) :
    createReferral appId referrerId metadata newId newCode now db = (e, db) := by
  unfold createReferral
  rw [h]

lemma createReferral_eq_fresh (appId referrerId : String) (metadata : Option String)
    (newId : Nat) (newCode : String) (now : Int) (db : List Referral)
    (h : sortByKeyDesc (fun r => r.created_at) (db.filter (fun r =>
      decide (r.app_id = appId ∧ r.referrer_id = referrerId ∧ r.status = "pending"))) = []) :
    createReferral appId referrerId metadata newId newCode now db =
      (freshReferral appId referrerId metadata newId newCode now,
       db ++ [freshReferral appId referrerId metadata newId newCode now]) := by
  unfold createReferral freshReferral
  rw [h]

/-- C7: across the four referral operations the `status` column only ever
transitions pending to completed or pending to expired and never leaves a
terminal state: `updateMilestone` never modifies any status,
`completeReferral` only completes a pending row (by primary key),
`expireOldReferrals` only expires pending rows, and `createReferral` leaves
existing rows untouched and only ever inserts a pending row. -/
theorem referral_status_transitions :
    (∀ (code m : String) (db : List Referral),
      ((updateMilestone code m db).2).map (fun r => r.status) =
        db.map (fun r => r.status)) ∧
    (∀ (code uid m : String) (now : Int) (db : List Referral), referralIdsUnique db →
      List.Forall₂ (fun old new =>
        new.status = old.status ∨ (old.status = "pending" ∧ new.status = "completed"))
        db (completeReferral code uid m now db).2) ∧
    (∀ (cutoff : Int) (db : List Referral),
      List.Forall₂ (fun old new =>
        new.status = old.status ∨ (old.status = "pending" ∧ new.status = "expired"))
        db (expireOldReferrals cutoff db).2) ∧
    (∀ (appId referrerId : String) (metadata : Option String) (newId : Nat)
      (newCode : String) (now : Int) (db : List Referral),
      (createReferral appId referrerId metadata newId newCode now db).2 = db ∨
      ∃ r, (createReferral appId referrerId metadata newId newCode now db).2 = db ++ [r] ∧
        r.status = "pending") := by
  refine ⟨?_, ?_, ?_, ?_⟩
  · intro code m db
    cases hfind : db.find? (fun r => decide (r.referral_code = code ∧ r.status ≠ "expired")) with
    | none => rw [updateMilestone_eq_none code m db hfind]
    | some r =>
      rw [updateMilestone_eq_some code m db r hfind, List.map_map]
      apply List.map_congr_left
      intro x hx
      by_cases h : x.id = r.id <;> simp [h]
  · intro code uid m now db huniq
    cases hfind : db.find? (fun r => decide (r.referral_code = code ∧ r.status = "pending")) with
    | none =>
      rw [completeReferral_eq_none code uid m now db hfind]
      exact List.forall₂_same.mpr (fun x _ => Or.inl rfl)
    | some r =>
      have hp : r.referral_code = code ∧ r.status = "pending" := by
        have hq := List.find?_some hfind
        simpa using hq
      have hrmem : r ∈ db := List.mem_of_find?_eq_some hfind
      rw [completeReferral_eq_some code uid m now db r hfind]
      apply forall₂_map_of_forall
      intro x hx
      by_cases h : x.id = r.id
      · have hxr : x = r := huniq x hx r hrmem h
        refine Or.inr ⟨by rw [hxr]; exact hp.2, ?_⟩
        simp [h]
      · simp [h]
  · intro cutoff db
    simp only [expireOldReferrals]
    apply forall₂_map_of_forall
    intro x hx
    by_cases h : x.status = "pending" ∧ x.created_at < cutoff
    · have hb : decide (x.status = "pending" ∧ x.created_at < cutoff) = true :=
        decide_eq_true_eq.mpr h
      rw [if_pos hb]
      exact Or.inr ⟨h.1, rfl⟩
    · have hb : decide (x.status = "pending" ∧ x.created_at < cutoff) = false := by
        simpa using h
      rw [if_neg (by rw [hb]; exact Bool.false_ne_true)]
      exact Or.inl rfl
  · intro appId referrerId metadata newId newCode now db
    cases hs : sortByKeyDesc (fun r => r.created_at) (db.filter (fun r =>
        decide (r.app_id = appId ∧ r.referrer_id = referrerId ∧ r.status = "pending"))) with
    | nil =>
      right
      exact ⟨freshReferral appId referrerId metadata newId newCode now,
        by rw [createReferral_eq_fresh appId referrerId metadata newId newCode now db hs], rfl⟩
    | cons e rest =>
      left
      rw [createReferral_eq_existing appId referrerId metadata newId newCode now db e rest hs]

/-- Concrete pending referral for the C7 witness. -/
def c7ref : Referral :=
  { id := 3, app_id := "appA", referrer_id := "userU", referral_code := "RC7",
    referred_user_id := none, status := "pending", milestone := "pending",
    created_at := 0, completed_at := none, metadata := none }

theorem referral_status_transitions_witness :
    List.Forall₂ (fun old new =>
      new.status = old.status ∨ (old.status = "pending" ∧ new.status = "completed"))
      [c7ref] (completeReferral "RC7" "userB" "completed" 9 [c7ref]).2 :=
  referral_status_transitions.2.1 "RC7" "userB" "completed" 9 [c7ref]
    (by
      intro a ha b hb _
      rw [List.mem_singleton.mp ha, List.mem_singleton.mp hb])

/-- C8: two consecutive `createReferral` calls for the same (app, referrer)
key return the same referral row (hence the same referral code) and the
second call inserts nothing: with a pending row in place the existing-row
query finds it both times. -/
theorem createReferral_idempotent :
    ∀ (appId referrerId : String) (m1 m2 : Option String) (id1 id2 : Nat)
      (cd1 cd2 : String) (t1 t2 : Int) (db : List Referral),
      (createReferral appId referrerId m2 id2 cd2 t2
          (createReferral appId referrerId m1 id1 cd1 t1 db).2).1 =
        (createReferral appId referrerId m1 id1 cd1 t1 db).1 ∧
      (createReferral appId referrerId m2 id2 cd2 t2
          (createReferral appId referrerId m1 id1 cd1 t1 db).2).2 =
        (createReferral appId referrerId m1 id1 cd1 t1 db).2 := by
  intro appId referrerId m1 m2 id1 id2 cd1 cd2 t1 t2 db
  cases hs : sortByKeyDesc (fun r => r.created_at) (db.filter (fun r =>
      decide (r.app_id = appId ∧ r.referrer_id = referrerId ∧ r.status = "pending"))) with
  | cons e rest =>
    rw [createReferral_eq_existing appId referrerId m1 id1 cd1 t1 db e rest hs,
      createReferral_eq_existing appId referrerId m2 id2 cd2 t2 db e rest hs]
    exact ⟨rfl, rfl⟩
  | nil =>
    rw [createReferral_eq_fresh appId referrerId m1 id1 cd1 t1 db hs]
    have hdbf : db.filter (fun r =>
        decide (r.app_id = appId ∧ r.referrer_id = referrerId ∧ r.status = "pending")) = [] :=
      (sortByKeyDesc_eq_nil _ _).mp hs
    have hfe : (db ++ [freshReferral appId referrerId m1 id1 cd1 t1]).filter (fun r =>
        decide (r.app_id = appId ∧ r.referrer_id = referrerId ∧ r.status = "pending")) =
        [freshReferral appId referrerId m1 id1 cd1 t1] := by
      rw [List.filter_append, hdbf]
      simp [freshReferral]
    have hs2 : sortByKeyDesc (fun r => r.created_at)
        ((db ++ [freshReferral appId referrerId m1 id1 cd1 t1]).filter (fun r =>
          decide (r.app_id = appId ∧ r.referrer_id = referrerId ∧ r.status = "pending"))) =
        freshReferral appId referrerId m1 id1 cd1 t1 :: [] := by
      rw [hfe]
      rfl
    rw [createReferral_eq_existing appId referrerId m2 id2 cd2 t2 _
      (freshReferral appId referrerId m1 id1 cd1 t1) [] hs2]
    exact ⟨rfl, rfl⟩

/-- C9: `updateMilestone` returns null exactly when no row carries the code
with a non-expired status, and then changes nothing; on success it returns
the found row with only its milestone replaced, regardless of the row's
current (non-expired) status or prior milestone. -/
theorem updateMilestone_spec :
    ∀ (code m : String) (db : List Referral),
      ((updateMilestone code m db).1 = none ↔
        ∀ r ∈ db, r.referral_code = code → r.status = "expired") ∧
      ((updateMilestone code m db).1 = none → (updateMilestone code m db).2 = db) ∧
      (∀ u, (updateMilestone code m db).1 = some u →
        u.milestone = m ∧ u.referral_code = code ∧ u.status ≠ "expired" ∧
        ∃ r ∈ db, r.referral_code = code ∧ r.status ≠ "expired" ∧
          u = { r with milestone := m }) := by
  intro code m db
  cases hfind : db.find? (fun r => decide (r.referral_code = code ∧ r.status ≠ "expired")) with
  | none =>
    rw [updateMilestone_eq_none code m db hfind]
    refine ⟨?_, fun _ => rfl, ?_⟩
    · constructor
      · intro _ r hr hcode
        have hall := List.find?_eq_none.mp hfind r hr
        simp only [decide_eq_true_eq] at hall
        exact not_not.mp (fun hne => hall ⟨hcode, hne⟩)
      · intro _
        rfl
    · intro u hu
      exact Option.noConfusion hu
  | some r =>
    have hp : r.referral_code = code ∧ r.status ≠ "expired" := by
      have hq := List.find?_some hfind
      simpa using hq
    have hrmem : r ∈ db := List.mem_of_find?_eq_some hfind
    rw [updateMilestone_eq_some code m db r hfind]
    refine ⟨?_, ?_, ?_⟩
    · constructor
      · intro h
        exact Option.noConfusion h
      · intro hall
        exact absurd (hall r hrmem hp.1) hp.2
    · intro h
      exact Option.noConfusion h
    · intro u hu
      have hu2 : u = { r with milestone := m } := (Option.some_injective _ hu).symm
      subst hu2
      exact ⟨rfl, hp.1, hp.2, r, hrmem, hp.1, hp.2, rfl⟩

/-- Concrete already-completed referral for the C9 witness. -/
def c9ref : Referral :=
  { id := 4, app_id := "appA", referrer_id := "userZ", referral_code := "RC9",
    referred_user_id := some "userB", status := "completed", milestone := "installed",
    created_at := 0, completed_at := some 5, metadata := none }

theorem updateMilestone_spec_witness :
    (updateMilestone "UNKNOWN" "purchased" [c9ref]).2 = [c9ref] :=
  (updateMilestone_spec "UNKNOWN" "purchased" [c9ref]).2.1 (by decide)

lemma handleClaimToken_eq_referral (appId token : String) (now : Int) (st : ServerState)
    (link : DeferredLink) (d2 : List DeferredLink) (code : String)
    (hclaim : claimByToken token now st.deferred = (some link, d2))
    (hparse : parseReferralPath link.deep_link_path = some code) :
    handleDeferredClaimToken appId token now st =
      ({ success := true, error := none, path := some link.deep_link_path,
         referrer_id := getReferrerIdByCode code st.referrals,
         referral_code := some code },
       { deferred := d2,
         referrals := (updateMilestone code "installed" st.referrals).2,
         events := st.events ++ [{ app_id := appId, event_type := "install",
                                   deep_link := link.deep_link_path,
                                   platform := "android",
                                   source := "deferred" }] }) := by
  unfold handleDeferredClaimToken
  rw [hclaim]
  dsimp only
  rw [hparse]

lemma handleClaimToken_eq_plain (appId token : String) (now : Int) (st : ServerState)
    (link : DeferredLink) (d2 : List DeferredLink)
    (hclaim : claimByToken token now st.deferred = (some link, d2))
    (hparse : parseReferralPath link.deep_link_path = none) :
    handleDeferredClaimToken appId token now st =
      ({ success := true, error := none, path := some link.deep_link_path,
         referrer_id := none, referral_code := none },
       { deferred := d2, referrals := st.referrals,
         events := st.events ++ [{ app_id := appId, event_type := "install",
                                   deep_link := link.deep_link_path,
                                   platform := "android",
                                   source := "deferred" }] }) := by
  unfold handleDeferredClaimToken
  rw [hclaim]
  dsimp only
  rw [hparse]

lemma updateMilestone_sets (code m : String) (db : List Referral)
    (h : ∃ r ∈ db, r.referral_code = code ∧ r.status ≠ "expired") :
    ∃ u ∈ (updateMilestone code m db).2, u.referral_code = code ∧ u.milestone = m := by
  cases hfind : db.find? (fun r => decide (r.referral_code = code ∧ r.status ≠ "expired")) with
  | none =>
    exfalso
    rcases h with ⟨r, hr, hpr⟩
    have hc := List.find?_eq_none.mp hfind r hr
    simp only [decide_eq_true_eq] at hc
    exact hc hpr
  | some r =>
    have hrm : r ∈ db := List.mem_of_find?_eq_some hfind
    have hp : r.referral_code = code ∧ r.status ≠ "expired" := by
      have hq := List.find?_some hfind
      simpa using hq
    rw [updateMilestone_eq_some code m db r hfind]
    refine ⟨{ r with milestone := m }, ?_, hp.1, rfl⟩
    have hr2 : { r with milestone := m } =
        (fun x => if x.id = r.id then { x with milestone := m } else x) r := by simp
    rw [hr2]
    exact List.mem_map_of_mem _ hrm

lemma updateMilestone_unknown (code m : String) (db : List Referral)
    (h : ∀ r ∈ db, r.referral_code ≠ code) :
    (updateMilestone code m db).2 = db := by
  have hfind : db.find? (fun r => decide (r.referral_code = code ∧ r.status ≠ "expired")) = none := by
    rw [List.find?_eq_none]
    intro r hr
    simp only [decide_eq_true_eq, not_and]
    intro hc
    exact absurd hc (h r hr)
  rw [updateMilestone_eq_none code m db hfind]

/-- C6: when a token claim succeeds and the claimed path has the referral
shape, the route answers success with the referral code and the looked-up
referrer id, and updates the referrals table exactly as
`updateMilestone(code, "installed")` does: an existing non-expired referral
gets milestone "installed", while an unknown code leaves the table
untouched and the claim still succeeds.  Paths without the referral shape
also succeed and never touch the referrals table. -/
theorem claim_referral_milestone :
    ∀ (st : ServerState) (appId tok : String) (now : Int) (link : DeferredLink),
      tok ≠ "" →
      (claimByToken tok now st.deferred).1 = some link →
      (∀ code, parseReferralPath link.deep_link_path = some code →
        (handleDeferredClaimToken appId tok now st).1.success = true ∧
        (handleDeferredClaimToken appId tok now st).1.referral_code = some code ∧
        (handleDeferredClaimToken appId tok now st).1.referrer_id =
          getReferrerIdByCode code st.referrals ∧
        (handleDeferredClaimToken appId tok now st).2.referrals =
          (updateMilestone code "installed" st.referrals).2 ∧
        ((∃ r ∈ st.referrals, r.referral_code = code ∧ r.status ≠ "expired") →
          ∃ u ∈ (handleDeferredClaimToken appId tok now st).2.referrals,
            u.referral_code = code ∧ u.milestone = "installed") ∧
        ((∀ r ∈ st.referrals, r.referral_code ≠ code) →
          (handleDeferredClaimToken appId tok now st).2.referrals = st.referrals)) ∧
      (parseReferralPath link.deep_link_path = none →
        (handleDeferredClaimToken appId tok now st).1.success = true ∧
        (handleDeferredClaimToken appId tok now st).1.referral_code = none ∧
        (handleDeferredClaimToken appId tok now st).2.referrals = st.referrals) := by
  intro st appId tok now link htok hclaim
  have hpair : claimByToken tok now st.deferred =
      (some link, (claimByToken tok now st.deferred).2) := by
    rw [← hclaim]
  constructor
  · intro code hparse
    rw [handleClaimToken_eq_referral appId tok now st link _ code hpair hparse]
    refine ⟨rfl, rfl, rfl, rfl, ?_, ?_⟩
    · intro hex
      exact updateMilestone_sets code "installed" st.referrals hex
    · intro hunk
      exact updateMilestone_unknown code "installed" st.referrals hunk
  · intro hparse
    rw [handleClaimToken_eq_plain appId tok now st link _ hpair hparse]
    exact ⟨rfl, rfl, rfl⟩

/-- Concrete deferred link with a referral deep-link path for the C6
witness. -/
def c6link : DeferredLink :=
  { id := 11, app_id := "appX", fingerprint := "fp", deep_link_path := "/referral/RC6",
    referrer_token := some "tok6", created_at := 0, expires_at := 100, claimed := 0,
    ip := none, timezone := none, language := none,
    screen_width := none, screen_height := none }

/-- Concrete pending referral behind the claimed path for the C6 witness. -/
def c6ref : Referral :=
  { id := 12, app_id := "appX", referrer_id := "userR", referral_code := "RC6",
    referred_user_id := none, status := "pending", milestone := "pending",
    created_at := 0, completed_at := none, metadata := none }

/-- Concrete server state for the C6 witness. -/
def c6st : ServerState :=
  { deferred := [c6link], referrals := [c6ref], events := [] }

theorem claim_referral_milestone_witness :
    (handleDeferredClaimToken "appX" "tok6" 5 c6st).1.referral_code = some "RC6" :=
  ((claim_referral_milestone c6st "appX" "tok6" 5 c6link (by decide) (by decide)).1
    "RC6" (by decide)).2.1

/-- C10: `claimByToken` filters only on token, unclaimed flag and expiry —
there is no app-id condition — so the token route succeeds even when the
stored link belongs to a different app than the requesting one, returning
the stored link's path while logging the install event under the
requesting app's id. -/
theorem claimByToken_no_app_filter :
    ∀ (st : ServerState) (appId tok : String) (now : Int) (link : DeferredLink),
      tok ≠ "" →
      (claimByToken tok now st.deferred).1 = some link →
      link.app_id ≠ appId →
      (handleDeferredClaimToken appId tok now st).1.success = true ∧
      (handleDeferredClaimToken appId tok now st).1.path = some link.deep_link_path ∧
      (handleDeferredClaimToken appId tok now st).2.events =
        st.events ++ [{ app_id := appId, event_type := "install",
                        deep_link := link.deep_link_path, platform := "android",
                        source := "deferred" }] := by
  intro st appId tok now link htok hclaim hne
  have hpair : claimByToken tok now st.deferred =
      (some link, (claimByToken tok now st.deferred).2) := by
    rw [← hclaim]
  cases hparse : parseReferralPath link.deep_link_path with
  | some code =>
    rw [handleClaimToken_eq_referral appId tok now st link _ code hpair hparse]
    exact ⟨rfl, rfl, rfl⟩
  | none =>
    rw [handleClaimToken_eq_plain appId tok now st link _ hpair hparse]
    exact ⟨rfl, rfl, rfl⟩

/-- Concrete deferred link stored for app "appA" for the C10 witness. -/
def c10link : DeferredLink :=
  { id := 21, app_id := "appA", fingerprint := "fp", deep_link_path := "/merchant/1",
    referrer_token := some "tokX", created_at := 0, expires_at := 100, claimed := 0,
    ip := none, timezone := none, language := none,
    screen_width := none, screen_height := none }

/-- Concrete server state for the C10 witness: the claim arrives through
app "appB". -/
def c10st : ServerState :=
  { deferred := [c10link], referrals := [], events := [] }

theorem claimByToken_no_app_filter_witness :
    (handleDeferredClaimToken "appB" "tokX" 5 c10st).1.path =
      some c10link.deep_link_path :=
  (claimByToken_no_app_filter c10st "appB" "tokX" 5 c10link (by decide) (by decide)
    (by decide)).2.1
